import Mathlib

set_option linter.unusedVariables false

/-!
# Review scheduling and queue selection — verification development

Shallow embedding of the review-scheduling core of the Chinese conversation
practice app (frontend sources under `src/frontend/src`, latest revision of
each file).  Timestamps are modelled as `Nat` milliseconds (Firestore
`Timestamp.toMillis`).  Firestore document names are modelled as `Nat`
identifiers carrying the store's total order on document names.  Display-only
fields of a vocabulary document (`simplified`, `mandarin`, `cantonese`,
`language`) play no role in scheduling and are omitted.
-/

namespace ChineseApp

/-- `Language` from `types.ts`: `'mandarin' | 'cantonese'`. -/
inductive Language where
  | mandarin
  | cantonese
deriving DecidableEq, Repr

/-- A document of the `vocabulary` collection, restricted to the fields the
scheduling logic reads.  `nextReviewMandarin` / `nextReviewCantonese` model the
dynamic `nextReview${Language}` Firestore fields (absent = never scheduled);
`mastered_mandarin` / `mastered_cantonese` model the dynamic
`mastered_${language}` fields (absent, `false` and `true` are distinct states,
as in Firestore). -/
structure VocabEntry where
  id : Nat
  timestamp : Nat
  nextReviewMandarin : Option Nat := none
  nextReviewCantonese : Option Nat := none
  mastered_mandarin : Option Bool := none
  mastered_cantonese : Option Bool := none
deriving DecidableEq, Repr

/-- `data[nextReviewField]` where `nextReviewField` is the string
`nextReview${language.charAt(0).toUpperCase() + language.slice(1)}`. -/
def nextReviewField (d : VocabEntry) : Language → Option Nat
  | Language.mandarin => d.nextReviewMandarin
  | Language.cantonese => d.nextReviewCantonese

/-- `data[masteredField]` where `masteredField` is the string
`mastered_${language}`. -/
def masteredField (d : VocabEntry) : Language → Option Bool
  | Language.mandarin => d.mastered_mandarin
  | Language.cantonese => d.mastered_cantonese

/-- The client-side exclusion test: the code keeps a document when
`data[masteredField] !== true`, so `isMastered` holds exactly when the
`mastered_${language}` field is present and `true`. -/
def isMastered (d : VocabEntry) (lang : Language) : Bool :=
  masteredField d lang == some true

/-- `where(nextReviewField, '<=', now)`: Firestore field filters match only
documents where the field is present. -/
def isDue (lang : Language) (now : Nat) (d : VocabEntry) : Bool :=
  match nextReviewField d lang with
  | some t => t ≤ now
  | none => false

/-- `where(nextReviewField, '>', now)`. -/
def isUpcoming (lang : Language) (now : Nat) (d : VocabEntry) : Bool :=
  match nextReviewField d lang with
  | some t => now < t
  | none => false

/-- Lexicographic order on `(field value, document name)` key pairs: Firestore
orders query results by the filtered/ordered field and finally by document
name. -/
def keyLe (k₁ k₂ : Nat × Nat) : Prop :=
  k₁.1 < k₂.1 ∨ (k₁.1 = k₂.1 ∧ k₁.2 ≤ k₂.2)

/-- Strict version of `keyLe`. -/
def keyLt (k₁ k₂ : Nat × Nat) : Prop :=
  k₁.1 < k₂.1 ∨ (k₁.1 = k₂.1 ∧ k₁.2 < k₂.2)

instance : DecidableRel keyLe := fun k₁ k₂ => by
  unfold keyLe; infer_instance

instance : DecidableRel keyLt := fun k₁ k₂ => by
  unfold keyLt; infer_instance

/-- Sort key of the due and upcoming queries: the `nextReview${Language}`
value (present on every matched document) then the document name. -/
def dueKey (lang : Language) (d : VocabEntry) : Nat × Nat :=
  ((nextReviewField d lang).getD 0, d.id)

/-- Sort key of the `orderBy('timestamp')` query: creation timestamp then the
document name. -/
def newKey (d : VocabEntry) : Nat × Nat :=
  (d.timestamp, d.id)

/-- Result ordering of the due/upcoming queries. -/
def dueLe (lang : Language) (a b : VocabEntry) : Prop :=
  keyLe (dueKey lang a) (dueKey lang b)

/-- Result ordering of the `orderBy('timestamp')` query. -/
def newLe (a b : VocabEntry) : Prop :=
  keyLe (newKey a) (newKey b)

instance : DecidableRel (dueLe lang) := fun a b => by
  unfold dueLe; infer_instance

instance : DecidableRel newLe := fun a b => by
  unfold newLe; infer_instance

theorem keyLe_total (k₁ k₂ : Nat × Nat) : keyLe k₁ k₂ ∨ keyLe k₂ k₁ := by
  unfold keyLe
  rcases Nat.lt_trichotomy k₁.1 k₂.1 with h | h | h
  · exact Or.inl (Or.inl h)
  · rcases Nat.le_total k₁.2 k₂.2 with h2 | h2
    · exact Or.inl (Or.inr ⟨h, h2⟩)
    · exact Or.inr (Or.inr ⟨h.symm, h2⟩)
  · exact Or.inr (Or.inl h)

theorem keyLe_trans {k₁ k₂ k₃ : Nat × Nat} (h₁ : keyLe k₁ k₂) (h₂ : keyLe k₂ k₃) :
    keyLe k₁ k₃ := by
  unfold keyLe at *
  rcases h₁ with h₁ | ⟨e₁, l₁⟩
  · rcases h₂ with h₂ | ⟨e₂, _⟩
    · exact Or.inl (h₁.trans h₂)
    · exact Or.inl (e₂ ▸ h₁)
  · rcases h₂ with h₂ | ⟨e₂, l₂⟩
    · exact Or.inl (e₁ ▸ h₂)
    · exact Or.inr ⟨e₁.trans e₂, l₁.trans l₂⟩

theorem keyLt_not_keyLe {k₁ k₂ : Nat × Nat} (h : keyLt k₁ k₂) : ¬ keyLe k₂ k₁ := by
  unfold keyLt at h
  unfold keyLe
  rcases h with h | ⟨e, l⟩
  · rintro (h' | ⟨e', _⟩)
    · exact absurd (h.trans h') (Nat.lt_irrefl _)
    · exact absurd (e' ▸ h) (Nat.lt_irrefl _)
  · rintro (h' | ⟨_, l'⟩)
    · exact absurd (e ▸ h') (Nat.lt_irrefl _)
    · exact absurd (Nat.lt_of_lt_of_le l l') (Nat.lt_irrefl _)

instance : IsTotal VocabEntry (dueLe lang) :=
  ⟨fun a b => keyLe_total (dueKey lang a) (dueKey lang b)⟩

instance : IsTrans VocabEntry (dueLe lang) :=
  ⟨fun _ _ _ h₁ h₂ => keyLe_trans h₁ h₂⟩

instance : IsTotal VocabEntry newLe :=
  ⟨fun a b => keyLe_total (newKey a) (newKey b)⟩

instance : IsTrans VocabEntry newLe :=
  ⟨fun _ _ _ h₁ h₂ => keyLe_trans h₁ h₂⟩

/-- `Math.ceil((t - now) / (1000 * 60))` for `now < t`, in `Nat`
milliseconds. -/
def minutesUntil (now t : Nat) : Nat :=
  (t - now + 59999) / 60000

/-- Result of `fetchNextVocab` (`types.ts` 990–1114): either a vocabulary
document is presented (`setCurrentVocab(...)` from the due or new tier) or no
item is available, optionally with the `Next review available in N minutes`
ETA. -/
inductive SelectResult where
  | found (d : VocabEntry)
  | noneAvailable (etaMinutes : Option Nat)
deriving DecidableEq, Repr

/-- Due-tier fetch (`types.ts` 1015–1020): `where(nextReviewField, '<=', now),
limit(50)`; Firestore implicitly orders an inequality-filtered query by the
inequality field, then by document name. -/
def dueFetch (corpus : List VocabEntry) (lang : Language) (now : Nat) : List VocabEntry :=
  (List.insertionSort (dueLe lang) (corpus.filter (isDue lang now))).take 50

/-- Due tier after the client-side mastered filter (`types.ts` 1023–1027). -/
def dueWords (corpus : List VocabEntry) (lang : Language) (now : Nat) : List VocabEntry :=
  (dueFetch corpus lang now).filter (fun d => ! isMastered d lang)

/-- New-tier fetch (`types.ts` 1048–1053): `orderBy('timestamp'), limit(50)`. -/
def newFetch (corpus : List VocabEntry) : List VocabEntry :=
  (List.insertionSort newLe corpus).take 50

/-- New tier after the client-side filter (`types.ts` 1056–1060): keep
documents without the `nextReview${Language}` field that are not mastered. -/
def newWords (corpus : List VocabEntry) (lang : Language) : List VocabEntry :=
  (newFetch corpus).filter
    (fun d => (nextReviewField d lang).isNone && ! isMastered d lang)

/-- Upcoming fetch (`types.ts` 1082–1087): `where(nextReviewField, '>', now),
orderBy(nextReviewField), limit(1)`. -/
def upcomingFetch (corpus : List VocabEntry) (lang : Language) (now : Nat) : List VocabEntry :=
  (List.insertionSort (dueLe lang) (corpus.filter (isUpcoming lang now))).take 1

/-- Upcoming tier after the client-side mastered filter (`types.ts`
1091–1095) — applied to the single fetched document. -/
def upcomingWords (corpus : List VocabEntry) (lang : Language) (now : Nat) : List VocabEntry :=
  (upcomingFetch corpus lang now).filter (fun d => ! isMastered d lang)

/-- `fetchNextVocab` (`types.ts` 1014–1107), as a pure selection over a
snapshot of the `vocabulary` collection: try the due tier, then the new tier,
then report the ETA of the (at most one) upcoming document, else
`'No vocabulary available'`. -/
def fetchNextVocab (corpus : List VocabEntry) (lang : Language) (now : Nat) : SelectResult :=
  match dueWords corpus lang now with
  | d :: _ => SelectResult.found d
  | [] =>
    match newWords corpus lang with
    | d :: _ => SelectResult.found d
    | [] =>
      match upcomingWords corpus lang now with
      | d :: _ =>
          SelectResult.noneAvailable
            (some (minutesUntil now ((nextReviewField d lang).getD 0)))
      | [] => SelectResult.noneAvailable none

/-! ## Scheduler operations -/

/-- Per-document write of the `mastered_${language}` field. -/
def setMasteredField (d : VocabEntry) (lang : Language) (m : Bool) : VocabEntry :=
  match lang with
  | Language.mandarin => { d with mastered_mandarin := some m }
  | Language.cantonese => { d with mastered_cantonese := some m }

/-- Per-document write of the `nextReview${Language}` field. -/
def setNextReviewField (d : VocabEntry) (lang : Language) (t : Nat) : VocabEntry :=
  match lang with
  | Language.mandarin => { d with nextReviewMandarin := some t }
  | Language.cantonese => { d with nextReviewCantonese := some t }

/-- Modelled from the spec: the `mark_word_mastered` cloud function invoked by
`markWordMastered` (`scheduler.ts` 145–168) is not part of this repository's
sources; per the spec, `setMastered` "toggles the flag only;
`nextDueAt`/`progressCount` untouched", so the store write sets exactly the
`mastered_${language}` field of the addressed document. -/
def markWordMastered (corpus : List VocabEntry) (docId : Nat) (lang : Language)
    (m : Bool) : List VocabEntry :=
  corpus.map (fun d => if d.id = docId then setMasteredField d lang m else d)

/-- Modelled from the spec: the `update_review_time` cloud function invoked by
`updateReviewTime` (`scheduler.ts` 170–193) is not part of this repository's
sources; per the spec, `overrideReviewTime` "sets `nextDueAt` directly; does
not touch `progressCount` or `mastered`". -/
def updateReviewTimeStore (corpus : List VocabEntry) (docId : Nat) (lang : Language)
    (t : Nat) : List VocabEntry :=
  corpus.map (fun d => if d.id = docId then setNextReviewField d lang t else d)

/-- `date.toISOString().split('.')[0]`: the caller drops the sub-second part
of the timestamp before sending it, truncating to whole seconds. -/
def truncSec (t : Nat) : Nat :=
  t / 1000 * 1000

/-- `handleUpdateTime` (`types.ts` 1169–1186): the chosen time is serialised
without milliseconds and sent to `update_review_time`. -/
def handleUpdateTime (corpus : List VocabEntry) (docId : Nat) (lang : Language)
    (t : Nat) : List VocabEntry :=
  updateReviewTimeStore corpus docId lang (truncSec t)

/-- The mastered-words unmark handler (`types.ts` 1548–1558): on ✕ it calls
`markWordMastered(word.id, language, false)` and then immediately
`updateReviewTime(word.id, language, isoString)` with a time five minutes
from now, milliseconds dropped. -/
def unmarkMasteredHandler (corpus : List VocabEntry) (docId : Nat) (lang : Language)
    (now : Nat) : List VocabEntry :=
  updateReviewTimeStore (markWordMastered corpus docId lang false) docId lang
    (truncSec (now + 5 * 60000))

/-! ## Interval policy (backend, modelled from the spec) -/

/-- The judged outcome of one answer: the `hadDifficulty` self-flag submitted
with the answer together with the judge's `fluent` / `has_fillers` /
`meaningful_usage` verdict (`Evaluation` in `types.ts` 40–47). -/
structure EvalOutcome where
  hadDifficulty : Bool
  fluent : Bool
  has_fillers : Bool
  meaningful_usage : Bool
deriving DecidableEq, Repr

/-- The success-interval table, in minutes.  The frontend mirrors it in
`ReviewIntervals` (`types.ts` 49–59): `SUCCESS.INITIAL = [60, 240]` and
`SUCCESS.SUBSEQUENT = [1440, 4320, 10080]`. -/
def SUCCESS_SEQUENCE : List Nat := [60, 240, 1440, 4320, 10080]

/-- Modelled from the spec: the IntervalPolicy implemented by the
`evaluate_answer` cloud function is not part of this repository's sources.
Decision order, first match wins: difficulty → 5 min, non-fluent or fillers →
15 min, fluent but not meaningful usage → 30 min, each resetting the progress
count; full success → `SUCCESS_SEQUENCE[progressCount]` with the lookup
clamped to the last entry, and `newProgressCount = progressCount + 1`
unclamped. -/
def nextState (o : EvalOutcome) (progressCount : Nat) : Nat × Nat :=
  if o.hadDifficulty then (5, 0)
  else if !o.fluent || o.has_fillers then (15, 0)
  else if !o.meaningful_usage then (30, 0)
  else (SUCCESS_SEQUENCE.getD (min progressCount (SUCCESS_SEQUENCE.length - 1)) 0,
        progressCount + 1)

/-! ## External calls (`scheduler.ts`, `questions.ts`) -/

/-- The shape of a `fetch` invocation as configured by the caller.  A plain
`fetch(url, { method, headers, body })` sets no `AbortSignal` and no deadline,
so `timeoutMs = none`; request bodies are not modelled. -/
structure FetchRequest where
  url : String
  method : String
  timeoutMs : Option Nat
deriving DecidableEq, Repr

/-- The request built by `evaluateAnswer` (`scheduler.ts` 116–143): a POST to
the `evaluate_answer` cloud function with a JSON body and no timeout. -/
def evaluateAnswerRequest (docId : String) (language : Language) (answer : String)
    (hadDifficulty : Bool) (generatedQuestion : Option String) : FetchRequest :=
  { url := "https://us-central1-wz-data-catalog-demo.cloudfunctions.net/evaluate_answer"
    method := "POST"
    timeoutMs := none }

/-- The request built by `generateQuestion` (`questions.ts` 25–47): a POST to
the `generate_vocab_question` cloud function with a JSON body and no
timeout. -/
def generateQuestionRequest (word : String) (language : Language)
    (cantoneseEntry : Option String) : FetchRequest :=
  { url := "https://us-central1-wz-data-catalog-demo.cloudfunctions.net/generate_vocab_question"
    method := "POST"
    timeoutMs := none }

/-! ## Authentication (`auth.ts`, latest revision, lines 48–76) -/

/-- A Firebase user as seen by `signIn`: `result.user.email` is nullable. -/
structure AuthUser where
  email : Option String
deriving DecidableEq, Repr

/-- Outcome of `signInWithPopup`: `none` when the popup itself fails
(blocked, cancelled, closed), `some u` when a user authenticated. -/
def PopupResult : Type := Option AuthUser

/-- `signIn` (`auth.ts` 48–76): clears any existing session, runs the popup,
and accepts the result only when `result.user.email === 'wzhybrid@gmail.com'`;
any other account is signed out again and an `Error` is thrown (popup
failures are rethrown with a specific message).  Returns the resolution of
the promise together with the session state afterwards. -/
def signIn (popup : Option AuthUser) : Except String AuthUser × Option AuthUser :=
  match popup with
  | none => (Except.error "Sign in failed", none)
  | some u =>
    if u.email = some "wzhybrid@gmail.com" then (Except.ok u, some u)
    else (Except.error "Please sign in with wzhybrid@gmail.com", none)

/-! ## Field-update and membership lemmas -/

theorem id_setMasteredField (d : VocabEntry) (lang : Language) (m : Bool) :
    (setMasteredField d lang m).id = d.id := by
  cases lang <;> rfl

theorem timestamp_setMasteredField (d : VocabEntry) (lang : Language) (m : Bool) :
    (setMasteredField d lang m).timestamp = d.timestamp := by
  cases lang <;> rfl

theorem nextReviewField_setMasteredField (d : VocabEntry) (lang lang' : Language) (m : Bool) :
    nextReviewField (setMasteredField d lang m) lang' = nextReviewField d lang' := by
  cases lang <;> cases lang' <;> rfl

theorem masteredField_setMasteredField_self (d : VocabEntry) (lang : Language) (m : Bool) :
    masteredField (setMasteredField d lang m) lang = some m := by
  cases lang <;> rfl

theorem id_setNextReviewField (d : VocabEntry) (lang : Language) (t : Nat) :
    (setNextReviewField d lang t).id = d.id := by
  cases lang <;> rfl

theorem nextReviewField_setNextReviewField_self (d : VocabEntry) (lang : Language) (t : Nat) :
    nextReviewField (setNextReviewField d lang t) lang = some t := by
  cases lang <;> rfl

theorem mem_dueFetch {corpus : List VocabEntry} {lang : Language} {now : Nat}
    {d : VocabEntry} (h : d ∈ dueFetch corpus lang now) :
    d ∈ corpus ∧ isDue lang now d = true := by
  unfold dueFetch at h
  have h₂ := (List.mem_insertionSort (dueLe lang)).mp (List.take_subset _ _ h)
  exact List.mem_filter.mp h₂

theorem mem_dueWords {corpus : List VocabEntry} {lang : Language} {now : Nat}
    {d : VocabEntry} (h : d ∈ dueWords corpus lang now) :
    d ∈ corpus ∧ isDue lang now d = true ∧ isMastered d lang = false := by
  unfold dueWords at h
  have h₁ := List.mem_filter.mp h
  have h₂ := mem_dueFetch h₁.1
  exact ⟨h₂.1, h₂.2, by simpa using h₁.2⟩

theorem mem_newFetch {corpus : List VocabEntry} {d : VocabEntry}
    (h : d ∈ newFetch corpus) : d ∈ corpus := by
  unfold newFetch at h
  exact (List.mem_insertionSort newLe).mp (List.take_subset _ _ h)

theorem mem_newWords {corpus : List VocabEntry} {lang : Language} {d : VocabEntry}
    (h : d ∈ newWords corpus lang) :
    d ∈ corpus ∧ (nextReviewField d lang).isNone = true ∧ isMastered d lang = false := by
  unfold newWords at h
  have h₁ := List.mem_filter.mp h
  have h₂ := mem_newFetch h₁.1
  have h₃ := h₁.2
  simp only [Bool.and_eq_true, Bool.not_eq_true'] at h₃
  exact ⟨h₂, h₃.1, h₃.2⟩

theorem mem_upcomingFetch {corpus : List VocabEntry} {lang : Language} {now : Nat}
    {d : VocabEntry} (h : d ∈ upcomingFetch corpus lang now) :
    d ∈ corpus ∧ isUpcoming lang now d = true := by
  unfold upcomingFetch at h
  have h₂ := (List.mem_insertionSort (dueLe lang)).mp (List.take_subset _ _ h)
  exact List.mem_filter.mp h₂

theorem mem_upcomingWords {corpus : List VocabEntry} {lang : Language} {now : Nat}
    {d : VocabEntry} (h : d ∈ upcomingWords corpus lang now) :
    d ∈ corpus ∧ isUpcoming lang now d = true ∧ isMastered d lang = false := by
  unfold upcomingWords at h
  have h₁ := List.mem_filter.mp h
  have h₂ := mem_upcomingFetch h₁.1
  exact ⟨h₂.1, h₂.2, by simpa using h₁.2⟩

/-- The first element of a pairwise-ordered list that strictly precedes every
other member is the head. -/
theorem head_of_min {α : Type} {r : α → α → Prop} {l : List α} {a : α}
    (hp : l.Pairwise r) (ha : a ∈ l) (hmin : ∀ b ∈ l, b ≠ a → ¬ r b a) :
    ∃ tl, l = a :: tl := by
  cases l with
  | nil => exact absurd ha (List.not_mem_nil a)
  | cons hd tl =>
    by_cases hda : hd = a
    · exact ⟨tl, by rw [hda]⟩
    · exfalso
      have hat : a ∈ tl := by
        rcases List.mem_cons.mp ha with h | h
        · exact absurd h.symm hda
        · exact h
      have hr : r hd a := (List.pairwise_cons.mp hp).1 a hat
      exact hmin hd (List.mem_cons_self hd tl) hda hr

theorem dueWords_pairwise (corpus : List VocabEntry) (lang : Language) (now : Nat) :
    (dueWords corpus lang now).Pairwise (dueLe lang) := by
  unfold dueWords dueFetch
  exact List.Pairwise.sublist ((List.filter_sublist _).trans (List.take_sublist _ _))
    (List.sorted_insertionSort (dueLe lang) _)

theorem upcoming_sorted_pairwise (corpus : List VocabEntry) (lang : Language) (now : Nat) :
    (List.insertionSort (dueLe lang) (corpus.filter (isUpcoming lang now))).Pairwise
      (dueLe lang) :=
  List.sorted_insertionSort (dueLe lang) _

/-! ## Claim theorems -/

/-- C1: for a run of consecutive full-success outcomes the IntervalPolicy
offsets at `progressCount = 0..6` are 60, 240, 1440, 4320, 10080, 10080,
10080 minutes (the lookup clamps to the last entry of `SUCCESS_SEQUENCE`),
and after every full success `newProgressCount = progressCount + 1` with no
clamping of the count itself. -/
theorem intervalPolicy_success_sequence (o : EvalOutcome)
    (h₁ : o.hadDifficulty = false) (h₂ : o.fluent = true)
    (h₃ : o.has_fillers = false) (h₄ : o.meaningful_usage = true) :
    ((nextState o 0).1 = 60 ∧ (nextState o 1).1 = 240 ∧ (nextState o 2).1 = 1440 ∧
      (nextState o 3).1 = 4320 ∧ (nextState o 4).1 = 10080 ∧
      (nextState o 5).1 = 10080 ∧ (nextState o 6).1 = 10080) ∧
    ∀ progressCount : Nat, (nextState o progressCount).2 = progressCount + 1 := by
  constructor
  · refine ⟨?_, ?_, ?_, ?_, ?_, ?_, ?_⟩ <;>
      simp [nextState, h₁, h₂, h₃, h₄, SUCCESS_SEQUENCE]
  · intro progressCount
    simp [nextState, h₁, h₂, h₃, h₄]

theorem intervalPolicy_success_sequence_witness :
    (nextState ⟨false, true, false, true⟩ 0).1 = 60 ∧
    (nextState ⟨false, true, false, true⟩ 5).1 = 10080 ∧
    (nextState ⟨false, true, false, true⟩ 3).2 = 4 := by
  have h := intervalPolicy_success_sequence ⟨false, true, false, true⟩ rfl rfl rfl rfl
  exact ⟨h.1.1, h.1.2.2.2.2.2.1, h.2 3⟩

/-- C4: `selectNext` never returns a document whose track for the requested
language is mastered: any returned document passed the explicit
`data[masteredField] !== true` test, so its `mastered_${language}` field is
not `true` (exclusion is decided by that boolean alone). -/
theorem selectNext_excludes_mastered (corpus : List VocabEntry) (lang : Language)
    (now : Nat) (d : VocabEntry)
    (h : fetchNextVocab corpus lang now = SelectResult.found d) :
    isMastered d lang = false ∧ masteredField d lang ≠ some true := by
  have hmf : isMastered d lang = false := by
    unfold fetchNextVocab at h
    split at h
    next d₀ tl heq =>
      injection h with hd
      rw [← hd]
      have hdm : d₀ ∈ dueWords corpus lang now := by
        rw [heq]; exact List.mem_cons_self _ _
      exact (mem_dueWords hdm).2.2
    next heq =>
      split at h
      next d₀ tl heq₂ =>
        injection h with hd
        rw [← hd]
        have hdm : d₀ ∈ newWords corpus lang := by
          rw [heq₂]; exact List.mem_cons_self _ _
        exact (mem_newWords hdm).2.2
      next heq₂ =>
        split at h
        next => simp at h
        next => simp at h
  refine ⟨hmf, ?_⟩
  intro hc
  simp [isMastered, hc] at hmf

theorem selectNext_excludes_mastered_witness :
    isMastered ⟨7, 0, some 5, none, some false, none⟩ Language.mandarin = false ∧
    masteredField ⟨7, 0, some 5, none, some false, none⟩ Language.mandarin ≠ some true :=
  selectNext_excludes_mastered [⟨7, 0, some 5, none, some false, none⟩]
    Language.mandarin 100 ⟨7, 0, some 5, none, some false, none⟩ (by decide)

/-- C6: `overrideReviewTime(id, lang, T)` (the `handleUpdateTime` path, which
drops sub-second precision before the store write) followed by a read of the
track returns exactly the second-truncated `T`; when `T` already is a whole
second it returns exactly `T`. -/
theorem overrideReviewTime_read_back (corpus : List VocabEntry) (docId : Nat)
    (lang : Language) (T : Nat) :
    ∀ d' ∈ handleUpdateTime corpus docId lang T, d'.id = docId →
      nextReviewField d' lang = some (truncSec T) ∧
      (T % 1000 = 0 → nextReviewField d' lang = some T) := by
  intro d' hd' hid
  unfold handleUpdateTime updateReviewTimeStore at hd'
  rcases List.mem_map.mp hd' with ⟨d, hd, heq⟩
  by_cases hdd : d.id = docId
  · rw [if_pos hdd] at heq
    subst heq
    constructor
    · exact nextReviewField_setNextReviewField_self d lang _
    · intro hmod
      have ht : truncSec T = T := Nat.div_mul_cancel (Nat.dvd_of_mod_eq_zero hmod)
      rw [nextReviewField_setNextReviewField_self, ht]
  · rw [if_neg hdd] at heq
    subst heq
    exact absurd hid hdd

theorem overrideReviewTime_read_back_witness :
    nextReviewField (setNextReviewField ⟨3, 0, none, none, none, none⟩
        Language.mandarin 42000) Language.mandarin = some (truncSec 42000) ∧
    (42000 % 1000 = 0 → nextReviewField (setNextReviewField ⟨3, 0, none, none, none, none⟩
        Language.mandarin 42000) Language.mandarin = some 42000) := by
  have h := overrideReviewTime_read_back [⟨3, 0, none, none, none, none⟩] 3
    Language.mandarin 42000
    (setNextReviewField ⟨3, 0, none, none, none, none⟩ Language.mandarin 42000)
    (by decide) (by decide)
  simpa using h

/-- C7: selection is total and returns the non-error `NoneAvailable` variant
on an empty corpus or a corpus whose every track for the language is
mastered. -/
theorem selectNext_all_mastered_none (corpus : List VocabEntry) (lang : Language)
    (now : Nat) (h : ∀ d ∈ corpus, isMastered d lang = true) :
    fetchNextVocab corpus lang now = SelectResult.noneAvailable none := by
  have hdue : dueWords corpus lang now = [] := by
    unfold dueWords
    apply List.filter_eq_nil_iff.mpr
    intro a ha
    simp [h a (mem_dueFetch ha).1]
  have hnew : newWords corpus lang = [] := by
    unfold newWords
    apply List.filter_eq_nil_iff.mpr
    intro a ha
    simp [h a (mem_newFetch ha)]
  have hupc : upcomingWords corpus lang now = [] := by
    unfold upcomingWords
    apply List.filter_eq_nil_iff.mpr
    intro a ha
    simp [h a (mem_upcomingFetch ha).1]
  unfold fetchNextVocab
  rw [hdue, hnew, hupc]

theorem selectNext_all_mastered_none_witness :
    fetchNextVocab [] Language.mandarin 0 = SelectResult.noneAvailable none ∧
    fetchNextVocab [⟨1, 0, some 0, none, some true, none⟩] Language.mandarin 10 =
      SelectResult.noneAvailable none := by
  constructor
  · exact selectNext_all_mastered_none [] Language.mandarin 0 (by simp)
  · exact selectNext_all_mastered_none [⟨1, 0, some 0, none, some true, none⟩]
      Language.mandarin 10 (by decide)

/-- C10: each tier fetches at most 50 documents in its query order and
filters mastered/new status client-side afterwards, so any document selected
comes from the first 50 of its tier's fetch order; a qualifying document
ranked beyond position 50 is never selected. -/
theorem selectNext_window_bound (corpus : List VocabEntry) (lang : Language)
    (now : Nat) :
    (dueFetch corpus lang now).length ≤ 50 ∧ (newFetch corpus).length ≤ 50 ∧
    ∀ d, fetchNextVocab corpus lang now = SelectResult.found d →
      d ∈ dueFetch corpus lang now ∨ d ∈ newFetch corpus := by
  refine ⟨?_, ?_, ?_⟩
  · unfold dueFetch
    rw [List.length_take]
    exact Nat.min_le_left _ _
  · unfold newFetch
    rw [List.length_take]
    exact Nat.min_le_left _ _
  · intro d h
    unfold fetchNextVocab at h
    split at h
    next d₀ tl heq =>
      injection h with hd
      rw [← hd]
      left
      have hdm : d₀ ∈ dueWords corpus lang now := by
        rw [heq]; exact List.mem_cons_self _ _
      exact (List.mem_filter.mp hdm).1
    next heq =>
      split at h
      next d₀ tl heq₂ =>
        injection h with hd
        rw [← hd]
        right
        have hdm : d₀ ∈ newWords corpus lang := by
          rw [heq₂]; exact List.mem_cons_self _ _
        exact (List.mem_filter.mp hdm).1
      next heq₂ =>
        split at h
        next => simp at h
        next => simp at h

theorem selectNext_window_bound_witness :
    ⟨9, 0, some 5, none, none, none⟩ ∈
        dueFetch [⟨9, 0, some 5, none, none, none⟩] Language.mandarin 100 ∨
    (⟨9, 0, some 5, none, none, none⟩ : VocabEntry) ∈ newFetch [⟨9, 0, some 5, none, none, none⟩] :=
  (selectNext_window_bound [⟨9, 0, some 5, none, none, none⟩] Language.mandarin 100).2.2
    ⟨9, 0, some 5, none, none, none⟩ (by decide)

/-- C8 (amended): neither the evaluation call nor the question-generation
call carries an explicit timeout or deadline — each is a plain `fetch` POST
to its cloud-function URL with only method, headers and a JSON body
configured. -/
theorem externalCalls_no_explicit_timeout (docId : String) (language : Language)
    (answer : String) (hadDifficulty : Bool) (generatedQuestion : Option String)
    (word : String) (cantoneseEntry : Option String) :
    (evaluateAnswerRequest docId language answer hadDifficulty generatedQuestion).timeoutMs
        = none ∧
    (evaluateAnswerRequest docId language answer hadDifficulty generatedQuestion).method
        = "POST" ∧
    (generateQuestionRequest word language cantoneseEntry).timeoutMs = none ∧
    (generateQuestionRequest word language cantoneseEntry).method = "POST" :=
  ⟨rfl, rfl, rfl, rfl⟩

/-- C8 counterexample: a concrete invocation of each external call carries no
explicit timeout/deadline, refuting the claim that every invocation does. -/
theorem externalCalls_timeout_counterexample :
    (evaluateAnswerRequest "doc1" Language.mandarin "answer" false none).timeoutMs = none ∧
    (generateQuestionRequest "word" Language.mandarin none).timeoutMs = none :=
  ⟨rfl, rfl⟩

/-- C9: `signIn` resolves successfully exactly when the authenticated
account's email is `wzhybrid@gmail.com`; any other authenticated account is
signed out again and an `Error` is thrown, and a successful resolution is the
authenticated account itself, left signed in. -/
theorem signIn_only_allowed_email (popup : Option AuthUser) :
    ((∃ u, (signIn popup).1 = Except.ok u) ↔
      ∃ u, popup = some u ∧ u.email = some "wzhybrid@gmail.com") ∧
    (∀ u, popup = some u → u.email ≠ some "wzhybrid@gmail.com" →
      (signIn popup).1 = Except.error "Please sign in with wzhybrid@gmail.com" ∧
      (signIn popup).2 = none) ∧
    ∀ u, (signIn popup).1 = Except.ok u →
      popup = some u ∧ u.email = some "wzhybrid@gmail.com" ∧
      (signIn popup).2 = some u := by
  cases popup with
  | none => simp [signIn]
  | some u =>
    by_cases he : u.email = some "wzhybrid@gmail.com"
    · simp [signIn, he]
    · simp [signIn, he]

theorem signIn_only_allowed_email_witness :
    (∃ u, (signIn (some ⟨some "wzhybrid@gmail.com"⟩)).1 = Except.ok u) ∧
    (signIn (some ⟨some "intruder@example.com"⟩)).2 = none := by
  constructor
  · exact (signIn_only_allowed_email (some ⟨some "wzhybrid@gmail.com"⟩)).1.mpr
      ⟨⟨some "wzhybrid@gmail.com"⟩, rfl, rfl⟩
  · exact ((signIn_only_allowed_email (some ⟨some "intruder@example.com"⟩)).2.1
      ⟨some "intruder@example.com"⟩ rfl (by simp)).2

/-- C2 (amended): when at most 50 documents of the corpus match the due query
(`nextReview${Language}` present and `<= now`), `selectNext` returns the
non-mastered due document that is minimal in `(nextDueAt, id)` order —
smallest due time first, ties broken by smallest document identity.  (With
more than 50 matching documents the limit-50 fetch can be exhausted by
mastered documents and the minimal non-mastered due item is skipped; see the
counterexample.) -/
theorem due_tier_min_selected (corpus : List VocabEntry) (lang : Language) (now : Nat)
    (a : VocabEntry)
    (hcount : (corpus.filter (isDue lang now)).length ≤ 50)
    (ha : a ∈ corpus) (hdue : isDue lang now a = true) (hm : isMastered a lang = false)
    (hmin : ∀ d ∈ corpus, isDue lang now d = true → isMastered d lang = false → d ≠ a →
      keyLt (dueKey lang a) (dueKey lang d)) :
    fetchNextVocab corpus lang now = SelectResult.found a := by
  have hlen : (List.insertionSort (dueLe lang) (corpus.filter (isDue lang now))).length ≤ 50 := by
    rw [List.length_insertionSort]
    exact hcount
  have hfetch : dueFetch corpus lang now =
      List.insertionSort (dueLe lang) (corpus.filter (isDue lang now)) := by
    unfold dueFetch
    exact List.take_of_length_le hlen
  have hmem : a ∈ dueWords corpus lang now := by
    unfold dueWords
    rw [hfetch]
    refine List.mem_filter.mpr ⟨?_, by simp [hm]⟩
    exact (List.mem_insertionSort _).mpr (List.mem_filter.mpr ⟨ha, hdue⟩)
  have hhead : ∃ tl, dueWords corpus lang now = a :: tl := by
    refine head_of_min (dueWords_pairwise corpus lang now) hmem ?_
    intro b hb hba
    have hbp := mem_dueWords hb
    exact keyLt_not_keyLe (hmin b hbp.1 hbp.2.1 hbp.2.2 hba)
  obtain ⟨tl, htl⟩ := hhead
  unfold fetchNextVocab
  rw [htl]

theorem due_tier_min_selected_witness :
    fetchNextVocab [⟨1, 0, some 10, none, none, none⟩, ⟨2, 0, some 20, none, none, none⟩]
      Language.mandarin 100 = SelectResult.found ⟨1, 0, some 10, none, none, none⟩ :=
  due_tier_min_selected
    [⟨1, 0, some 10, none, none, none⟩, ⟨2, 0, some 20, none, none, none⟩]
    Language.mandarin 100 ⟨1, 0, some 10, none, none, none⟩
    (by decide) (by decide) (by decide) (by decide) (by decide)

/-- C2 counterexample: a corpus with fifty mastered documents due at time 0
(ids 0–49) and two non-mastered due documents with `nextDueAt` 10 < 20 (ids
100, 101).  The due fetch returns only the fifty mastered documents, the
client-side filter discards them all, and selection falls through to
`NoneAvailable(None)` instead of returning the time-10 item demanded by the
claim. -/
theorem due_tier_crowding_counterexample :
    fetchNextVocab
        (((List.range 50).map fun i => (⟨i, 0, some 0, none, some true, none⟩ : VocabEntry)) ++
          [⟨100, 0, some 10, none, none, none⟩, ⟨101, 0, some 20, none, none, none⟩])
        Language.mandarin 1000 = SelectResult.noneAvailable none ∧
    isDue Language.mandarin 1000 ⟨100, 0, some 10, none, none, none⟩ = true ∧
    isDue Language.mandarin 1000 ⟨101, 0, some 20, none, none, none⟩ = true ∧
    isMastered ⟨100, 0, some 10, none, none, none⟩ Language.mandarin = false ∧
    isMastered ⟨101, 0, some 20, none, none, none⟩ Language.mandarin = false := by
  decide

/-- C3 (amended): when the due and new tiers are both empty, the reported ETA
is computed from the single soonest future `nextDueAt` over *all* tracks
(mastered included, since the mastered filter runs after `limit(1)`): if that
soonest-scheduled track is non-mastered, `NoneAvailable` carries the
rounded-up minutes until its due time; if it is mastered — even when a later
non-mastered future track exists — or when no future `nextDueAt` exists at
all, the result is `NoneAvailable(None)`. -/
theorem upcoming_eta_soonest_overall (corpus : List VocabEntry) (lang : Language)
    (now : Nat) (u : VocabEntry)
    (hdueE : dueWords corpus lang now = []) (hnewE : newWords corpus lang = [])
    (hu : u ∈ corpus) (hup : isUpcoming lang now u = true)
    (hmin : ∀ d ∈ corpus, isUpcoming lang now d = true → d ≠ u →
      keyLt (dueKey lang u) (dueKey lang d)) :
    fetchNextVocab corpus lang now =
      (if isMastered u lang then SelectResult.noneAvailable none
       else SelectResult.noneAvailable
         (some (minutesUntil now ((nextReviewField u lang).getD 0)))) := by
  have hhead : ∃ tl,
      List.insertionSort (dueLe lang) (corpus.filter (isUpcoming lang now)) = u :: tl := by
    refine head_of_min (upcoming_sorted_pairwise corpus lang now) ?_ ?_
    · exact (List.mem_insertionSort _).mpr (List.mem_filter.mpr ⟨hu, hup⟩)
    · intro b hb hbu
      have hbp := List.mem_filter.mp ((List.mem_insertionSort _).mp hb)
      exact keyLt_not_keyLe (hmin b hbp.1 hbp.2 hbu)
  obtain ⟨tl, htl⟩ := hhead
  have hfetch : upcomingFetch corpus lang now = [u] := by
    unfold upcomingFetch
    rw [htl]
    rfl
  unfold fetchNextVocab
  rw [hdueE, hnewE]
  by_cases hm : isMastered u lang
  · have hwords : upcomingWords corpus lang now = [] := by
      unfold upcomingWords
      rw [hfetch]
      simp [hm]
    rw [hwords]
    simp [hm]
  · have hwords : upcomingWords corpus lang now = [u] := by
      unfold upcomingWords
      rw [hfetch]
      simp [hm]
    rw [hwords]
    simp [hm]

theorem upcoming_eta_soonest_overall_witness :
    fetchNextVocab [⟨1, 0, some 600000, none, none, none⟩] Language.mandarin 0 =
      (if isMastered ⟨1, 0, some 600000, none, none, none⟩ Language.mandarin
       then SelectResult.noneAvailable none
       else SelectResult.noneAvailable (some (minutesUntil 0
         ((nextReviewField ⟨1, 0, some 600000, none, none, none⟩ Language.mandarin).getD 0)))) :=
  upcoming_eta_soonest_overall [⟨1, 0, some 600000, none, none, none⟩] Language.mandarin 0
    ⟨1, 0, some 600000, none, none, none⟩
    (by decide) (by decide) (by decide) (by decide) (by decide)

/-- C3 counterexample: both tiers empty; the soonest future `nextDueAt`
(10 min away) belongs to a mastered track while a non-mastered track is due
in 20 min.  The claim demands `NoneAvailable(20)`; the code fetches only the
single soonest document, filters it out as mastered, and reports
`NoneAvailable(None)`. -/
theorem upcoming_mastered_head_counterexample :
    fetchNextVocab [⟨1, 0, some 600000, none, some true, none⟩,
        ⟨2, 0, some 1200000, none, none, none⟩] Language.mandarin 0 =
      SelectResult.noneAvailable none ∧
    minutesUntil 0 1200000 = 20 ∧
    isMastered ⟨2, 0, some 1200000, none, none, none⟩ Language.mandarin = false ∧
    isUpcoming Language.mandarin 0 ⟨2, 0, some 1200000, none, none, none⟩ = true := by
  decide

/-- C5 (amended): the `setMastered` store write (modelled from the spec)
toggles only the `mastered_${language}` flag — ids, creation timestamps and
both `nextReview` fields are untouched — and after `setMastered(..., false)`
alone a track whose stored `nextDueAt` is in the past is the next
`selectNext` result (shown absent other items); however the app's only
un-mastering path, the mastered-words unmark handler, follows the flag write
with `updateReviewTime(now + 5 min)`, so through that path the track receives
a new future `nextDueAt` rather than resuming its pre-existing one. -/
theorem setMastered_toggle_only_but_handler_reschedules :
    (∀ (corpus : List VocabEntry) (docId : Nat) (lang : Language) (m : Bool),
        (markWordMastered corpus docId lang m).map
            (fun d => (d.id, d.timestamp, d.nextReviewMandarin, d.nextReviewCantonese)) =
          corpus.map
            (fun d => (d.id, d.timestamp, d.nextReviewMandarin, d.nextReviewCantonese))) ∧
    (∀ (X : VocabEntry) (lang : Language) (now t : Nat),
        nextReviewField X lang = some t → t ≤ now →
        fetchNextVocab (markWordMastered [X] X.id lang false) lang now =
          SelectResult.found (setMasteredField X lang false)) ∧
    (∀ (corpus : List VocabEntry) (docId : Nat) (lang : Language) (now : Nat),
        ∀ d' ∈ unmarkMasteredHandler corpus docId lang now, d'.id = docId →
          nextReviewField d' lang = some (truncSec (now + 5 * 60000))) := by
  refine ⟨?_, ?_, ?_⟩
  · intro corpus docId lang m
    unfold markWordMastered
    rw [List.map_map]
    apply List.map_congr_left
    intro d hd
    simp only [Function.comp_apply]
    by_cases hdd : d.id = docId
    · rw [if_pos hdd]
      cases lang <;> rfl
    · rw [if_neg hdd]
  · intro X lang now t hrev hle
    have hmm : markWordMastered [X] X.id lang false = [setMasteredField X lang false] := by
      unfold markWordMastered
      simp
    rw [hmm]
    have hdueX : isDue lang now (setMasteredField X lang false) = true := by
      unfold isDue
      rw [nextReviewField_setMasteredField, hrev]
      simpa using hle
    have hmastX : isMastered (setMasteredField X lang false) lang = false := by
      unfold isMastered
      rw [masteredField_setMasteredField_self]
      rfl
    have hdw : dueWords [setMasteredField X lang false] lang now =
        [setMasteredField X lang false] := by
      unfold dueWords dueFetch
      simp [List.filter_cons, hdueX, hmastX, List.insertionSort, List.orderedInsert]
    unfold fetchNextVocab
    rw [hdw]
  · intro corpus docId lang now d' hd' hid
    unfold unmarkMasteredHandler updateReviewTimeStore at hd'
    rcases List.mem_map.mp hd' with ⟨d, hd, heq⟩
    by_cases hdd : d.id = docId
    · rw [if_pos hdd] at heq
      rw [← heq]
      exact nextReviewField_setNextReviewField_self d lang _
    · rw [if_neg hdd] at heq
      rw [← heq] at hid
      exact absurd hid hdd

theorem setMastered_toggle_only_witness :
    fetchNextVocab (markWordMastered [(⟨5, 0, some 1000, none, some true, none⟩ : VocabEntry)]
        5 Language.mandarin false) Language.mandarin 600000 =
      SelectResult.found (setMasteredField ⟨5, 0, some 1000, none, some true, none⟩
        Language.mandarin false) :=
  setMastered_toggle_only_but_handler_reschedules.2.1
    ⟨5, 0, some 1000, none, some true, none⟩ Language.mandarin 600000 1000 rfl (by decide)

/-- C5 counterexample: a single mastered track whose stored `nextDueAt`
(1000 ms) is long past at `now = 600000 ms`.  Un-mastering it through the
app's unmark handler does not make it the next `selectNext` result: the
handler re-schedules it five minutes into the future, so selection reports
`NoneAvailable(5)` instead of returning the item under its pre-existing past
due time. -/
theorem unmark_handler_overrides_counterexample :
    1000 ≤ 600000 ∧
    fetchNextVocab (unmarkMasteredHandler [⟨5, 0, some 1000, none, some true, none⟩] 5
        Language.mandarin 600000) Language.mandarin 600000 =
      SelectResult.noneAvailable (some 5) := by
  decide

end ChineseApp
